import Mathlib

/-!
Verification of the task execution and result-aggregation pipeline of
go-mod-promote: a shallow embedding of the directory-sync planner, the
diff/patch subsystem, the task dispatcher, the result aggregator, the
manifest replace merger and the version-string helpers, with theorems
checking the stated properties against the embedded code.

Conventions of the embedding:
* Byte strings are modelled as `String` / `List Char`; every byte the
  embedded code inspects is a single-byte character, so byte indices and
  character indices coincide on all inputs considered here.
* Filesystem and subprocess effects are made explicit: directory trees are
  passed as association lists from relative path to content hash, and the
  outcome of an external command (exit code, captured output) is a
  parameter of the embedded function.
* Fallible Go code returns `Except`/`Option`; a Go slice-bounds panic is
  modelled as `Option.none`.
-/

namespace GoModPromote

/-- Model of Go's `filepath.Join` on two elements for already-clean inputs:
empty elements are dropped and the remaining ones are joined with a slash. -/
def filepathJoin (a b : String) : String :=
  if a = "" then b else if b = "" then a else a ++ "/" ++ b

theorem filepathJoin_right_injective (a : String) {b c : String}
    (h : filepathJoin a b = filepathJoin a c) : b = c := by
  unfold filepathJoin at h
  by_cases ha : a = ""
  · simpa [ha] using h
  · simp only [ha, if_false] at h
    by_cases hb : b = "" <;> by_cases hc : c = "" <;>
        simp only [hb, hc, if_true, if_false] at h
    · exact hb.trans hc.symm
    · exfalso
      have hd := congrArg (fun s => s.data.length) h
      simp only [String.data_append, List.length_append] at hd
      have h1 : "/".data.length = 1 := rfl
      have h2 : c.data ≠ [] := fun hnil => hc (congrArg String.mk hnil)
      have h3 : 0 < c.data.length := List.length_pos.mpr h2
      omega
    · exfalso
      have hd := congrArg (fun s => s.data.length) h
      simp only [String.data_append, List.length_append] at hd
      have h1 : "/".data.length = 1 := rfl
      have h2 : b.data ≠ [] := fun hnil => hb (congrArg String.mk hnil)
      have h3 : 0 < b.data.length := List.length_pos.mpr h2
      omega
    · have hd := congrArg String.data h
      simp only [String.data_append, List.append_assoc] at hd
      have hbc := List.append_cancel_left (List.append_cancel_left hd)
      exact congrArg String.mk hbc

/-! ## Result data model (pkg/tasks/tasks.go) -/

/-- `tasks.Patch`: a raw unified-diff body. -/
structure Patch where
  Body : List Char
deriving DecidableEq, Repr

/-- `tasks.Copy`: source absolute path and destination path relative to root. -/
structure Copy where
  Source : String
  Destination : String
deriving DecidableEq, Repr

/-- `tasks.Result`: accumulator of copies, deletions (`tasks.Delete` is a
path string) and patches. -/
structure Result where
  FilesToCopy : List Copy := []
  FilesToDelete : List String := []
  Patches : List Patch := []
deriving DecidableEq, Repr

/-- `Result.IsEmpty`. -/
def Result.IsEmpty (r : Result) : Bool :=
  if r.FilesToCopy.length > 0 then false
  else if r.FilesToDelete.length > 0 then false
  else if r.Patches.length > 0 then false
  else true

/-- `tasks.AggregateResult`: concatenates the three change-sets, skipping
`nil` results. -/
def AggregateResult (results : List (Option Result)) : Result :=
  results.foldl
    (fun aggregate r =>
      match r with
      | none => aggregate
      | some r =>
          { FilesToCopy := aggregate.FilesToCopy ++ r.FilesToCopy
            FilesToDelete := aggregate.FilesToDelete ++ r.FilesToDelete
            Patches := aggregate.Patches ++ r.Patches })
    {}

/-! ## Directory sync (TaskSyncDirectory.run)

The walked trees are passed as association lists from relative path to the
SHA-256 hex hash of the file's content: `walkDirectory` fills the maps with
relative paths, and `hash` is evaluated by `run` exactly for the paths
present in both trees, so giving each path its hash up front is faithful. -/

structure TaskSyncDirectory where
  Source : String
  Destination : String
  Glob : String := ""
  Recursive : Option Bool := none
deriving DecidableEq, Repr

/-- Embedding of `TaskSyncDirectory.run` after both walks: `sourcePath` is
the absolute source directory, `sourceFiles`/`destinationFiles` map each
walked relative path to its content hash.  The first range loop schedules a
copy for source-only paths; the second schedules a copy for common paths
with differing hashes and a deletion for destination-only paths. -/
def TaskSyncDirectory.run (t : TaskSyncDirectory) (sourcePath : String)
    (sourceFiles destinationFiles : List (String × String)) : Result :=
  { FilesToCopy :=
      (sourceFiles.filterMap fun pc =>
        if (destinationFiles.lookup pc.1).isSome then none
        else some { Source := filepathJoin sourcePath pc.1
                    Destination := filepathJoin t.Destination pc.1 })
      ++ (destinationFiles.filterMap fun pc =>
        match sourceFiles.lookup pc.1 with
        | some hashSource =>
            if pc.2 ≠ hashSource then
              some { Source := filepathJoin sourcePath pc.1
                     Destination := filepathJoin t.Destination pc.1 }
            else none
        | none => none)
    FilesToDelete :=
      destinationFiles.filterMap fun pc =>
        if (sourceFiles.lookup pc.1).isNone then
          some (filepathJoin t.Destination pc.1)
        else none
    Patches := [] }

/-! ### Association-list lookup facts used for the walked trees -/

theorem lookup_eq_none_iff (l : List (String × String)) (p : String) :
    l.lookup p = none ↔ p ∉ l.map Prod.fst := by
  induction l with
  | nil => simp
  | cons kv rest ih =>
    obtain ⟨k, v⟩ := kv
    by_cases hpk : p = k
    · subst hpk
      simp [List.lookup, beq_self_eq_true]
    · have hbk : (p == k) = false := beq_eq_false_iff_ne.mpr hpk
      simp [List.lookup, hbk, ih, hpk]

theorem lookup_eq_some_of_mem {l : List (String × String)} {p h : String}
    (hnd : (l.map Prod.fst).Nodup) (hmem : (p, h) ∈ l) : l.lookup p = some h := by
  induction l with
  | nil => simp at hmem
  | cons kv rest ih =>
    obtain ⟨k, v⟩ := kv
    simp only [List.map_cons, List.nodup_cons] at hnd
    rcases List.mem_cons.mp hmem with heq | hmem'
    · cases heq
      simp [List.lookup, beq_self_eq_true]
    · have hpk : p ≠ k := by
        rintro rfl
        exact hnd.1 (List.mem_map_of_mem Prod.fst hmem')
      have hbk : (p == k) = false := beq_eq_false_iff_ne.mpr hpk
      simp only [List.lookup, hbk]
      exact ih hnd.2 hmem'

theorem mem_of_lookup_eq_some {l : List (String × String)} {p h : String}
    (hl : l.lookup p = some h) : (p, h) ∈ l := by
  induction l with
  | nil => simp [List.lookup] at hl
  | cons kv rest ih =>
    obtain ⟨k, v⟩ := kv
    by_cases hpk : p = k
    · subst hpk
      have hbk : (p == p) = true := beq_self_eq_true p
      simp only [List.lookup, hbk] at hl
      injection hl with hvh
      subst hvh
      exact List.mem_cons_self _ _
    · have hbk : (p == k) = false := beq_eq_false_iff_ne.mpr hpk
      simp only [List.lookup, hbk] at hl
      exact List.mem_cons_of_mem _ (ih hl)

theorem mem_keys_of_lookup_isSome {l : List (String × String)} {p : String}
    (hl : (l.lookup p).isSome) : p ∈ l.map Prod.fst := by
  obtain ⟨h, hh⟩ := Option.isSome_iff_exists.mp hl
  exact List.mem_map_of_mem Prod.fst (mem_of_lookup_eq_some hh)

/-- C1: in the sync-directory plan, a relative path only in the source tree
is scheduled as a copy (source absolute path to the relative path joined
under the configured destination); a relative path only in the destination
tree is scheduled as a deletion; a relative path in both trees is scheduled
as a copy exactly when the two content hashes differ. -/
theorem syncDirectory_plan
    (t : TaskSyncDirectory) (sourcePath : String)
    (src dst : List (String × String))
    (hs : (src.map Prod.fst).Nodup) (hd : (dst.map Prod.fst).Nodup) :
    (∀ p h, (p, h) ∈ src → p ∉ dst.map Prod.fst →
      ({ Source := filepathJoin sourcePath p,
         Destination := filepathJoin t.Destination p } : Copy)
        ∈ (t.run sourcePath src dst).FilesToCopy) ∧
    (∀ p h, (p, h) ∈ dst → p ∉ src.map Prod.fst →
      filepathJoin t.Destination p ∈ (t.run sourcePath src dst).FilesToDelete) ∧
    (∀ p hsrc hdst, (p, hsrc) ∈ src → (p, hdst) ∈ dst →
      (({ Source := filepathJoin sourcePath p,
          Destination := filepathJoin t.Destination p } : Copy)
        ∈ (t.run sourcePath src dst).FilesToCopy ↔ hdst ≠ hsrc)) := by
  refine ⟨?_, ?_, ?_⟩
  · intro p h hmem hnot
    have hnone : dst.lookup p = none := (lookup_eq_none_iff dst p).mpr hnot
    unfold TaskSyncDirectory.run
    simp only [List.mem_append]
    left
    rw [List.mem_filterMap]
    exact ⟨(p, h), hmem, by simp [hnone]⟩
  · intro p h hmem hnot
    have hnone : src.lookup p = none := (lookup_eq_none_iff src p).mpr hnot
    unfold TaskSyncDirectory.run
    rw [List.mem_filterMap]
    exact ⟨(p, h), hmem, by simp [hnone]⟩
  · intro p hsrc hdst hmsrc hmdst
    have hlsrc : src.lookup p = some hsrc := lookup_eq_some_of_mem hs hmsrc
    have hldst : dst.lookup p = some hdst := lookup_eq_some_of_mem hd hmdst
    constructor
    · intro hcopy
      unfold TaskSyncDirectory.run at hcopy
      simp only [List.mem_append, List.mem_filterMap] at hcopy
      rcases hcopy with ⟨⟨q, hq⟩, hqmem, hqeq⟩ | ⟨⟨q, hq⟩, hqmem, hqeq⟩
      · cases hdl : dst.lookup q with
        | some w => simp [hdl] at hqeq
        | none =>
          simp [hdl] at hqeq
          have hqp : q = p :=
            filepathJoin_right_injective t.Destination hqeq.2
          subst hqp
          rw [hldst] at hdl
          cases hdl
      · cases hls : src.lookup q with
        | none => simp [hls] at hqeq
        | some hashSource =>
          by_cases hne : hq ≠ hashSource
          · simp [hls, hne] at hqeq
            have hqp : q = p :=
              filepathJoin_right_injective t.Destination hqeq.2
            subst hqp
            have h1 : hq = hdst :=
              Option.some_inj.mp ((lookup_eq_some_of_mem hd hqmem).symm.trans hldst)
            have h2 : hashSource = hsrc :=
              Option.some_inj.mp (hls.symm.trans hlsrc)
            intro hEq
            exact hne (h1.trans (hEq.trans h2.symm))
          · rw [not_not] at hne
            simp [hls, hne] at hqeq
    · intro hne
      unfold TaskSyncDirectory.run
      simp only [List.mem_append, List.mem_filterMap]
      right
      exact ⟨(p, hdst), hmdst, by simp [hlsrc, hne]⟩

theorem syncDirectory_plan_witness :
    ({ Source := filepathJoin "srcdir" "a",
       Destination := filepathJoin "vendor" "a" } : Copy)
      ∈ (TaskSyncDirectory.run { Source := "up", Destination := "vendor" }
          "srcdir" [("a", "h1"), ("b", "h2")]
          [("b", "h3"), ("c", "h4")]).FilesToCopy :=
  (syncDirectory_plan { Source := "up", Destination := "vendor" } "srcdir"
      [("a", "h1"), ("b", "h2")] [("b", "h3"), ("c", "h4")]
      (by decide) (by decide)).1 "a" "h1" (by decide) (by decide)

/-- C8: one sync-directory invocation never schedules both a copy and a
delete for the same relative path: every scheduled copy's destination
differs from every scheduled deletion target. -/
theorem syncDirectory_no_copy_delete_same_path
    (t : TaskSyncDirectory) (sourcePath : String)
    (src dst : List (String × String)) :
    ∀ c ∈ (t.run sourcePath src dst).FilesToCopy,
      ∀ d ∈ (t.run sourcePath src dst).FilesToDelete, c.Destination ≠ d := by
  intro c hc d hdmem
  unfold TaskSyncDirectory.run at hc hdmem
  simp only [List.mem_append, List.mem_filterMap] at hc hdmem
  obtain ⟨⟨q, hq⟩, hqmem, hqeq⟩ := hdmem
  cases hqn : src.lookup q with
  | some w => simp [hqn] at hqeq
  | none =>
  simp [hqn] at hqeq
  intro hcd
  have hqkeys : q ∉ src.map Prod.fst := (lookup_eq_none_iff src q).mp hqn
  rcases hc with ⟨⟨r, hr⟩, hrmem, hreq⟩ | ⟨⟨r, hr⟩, hrmem, hreq⟩
  · cases hdl : dst.lookup r with
    | some w => simp [hdl] at hreq
    | none =>
      simp only [hdl, Option.isSome_none, Bool.false_eq_true, if_false,
        Option.some.injEq] at hreq
      have hrdest : filepathJoin t.Destination r = c.Destination :=
        congrArg Copy.Destination hreq
      have hrq : r = q :=
        filepathJoin_right_injective t.Destination (hrdest.trans (hcd.trans hqeq.symm))
      exact hqkeys (hrq ▸ List.mem_map_of_mem Prod.fst hrmem)
  · cases hls : src.lookup r with
    | none => simp [hls] at hreq
    | some hashSource =>
      by_cases hne : hr ≠ hashSource
      · simp [hls, hne] at hreq
        have hrdest : filepathJoin t.Destination r = c.Destination := by
          rw [← hreq]
        have hrq : r = q :=
          filepathJoin_right_injective t.Destination (hrdest.trans (hcd.trans hqeq.symm))
        subst hrq
        rw [hqn] at hls
        cases hls
      · rw [not_not] at hne
        simp [hls, hne] at hreq

theorem syncDirectory_no_copy_delete_same_path_witness :
    ({ Source := filepathJoin "srcdir" "a",
       Destination := filepathJoin "vendor" "a" } : Copy).Destination ≠
      filepathJoin "vendor" "b" :=
  syncDirectory_no_copy_delete_same_path
    { Source := "up", Destination := "vendor" } "srcdir"
    [("a", "h")] [("b", "h")]
    { Source := filepathJoin "srcdir" "a",
      Destination := filepathJoin "vendor" "a" } (by decide)
    (filepathJoin "vendor" "b") (by decide)

/-! ## Manifest replace merger (pkg/gomod/go_mod.go, pkg/api/api.go) -/

/-- `module.Version`. -/
structure ModVersion where
  Path : String
  Version : String
deriving DecidableEq, Repr

/-- A `modfile.Replace` entry of the manifest, with the leading marker
comment (`Syntax.Before`) that `GoMod.addReplace` may attach. -/
structure Replace where
  Old : ModVersion
  New : ModVersion
  comment : String := ""
deriving DecidableEq, Repr

/-- `api.GoModReplace`: a replace directive with `Priority` (an int32, whose
values in this program are far from overflow) and an optional managed-marker
`Comment`. -/
structure GoModReplace where
  Old : ModVersion
  New : ModVersion
  Priority : Int
  Comment : String := ""
deriving DecidableEq, Repr

def GoModReplacePriorityManagedPackage : Int := 1000
def GoModReplaceUpstreamPackageVersion : Int := 400
def GoModReplaceUpstreamReplace : Int := 200

/-- The manifest handle: the replace table of the parsed go.mod file. -/
structure ModFile where
  Replace : List GoModPromote.Replace := []
deriving DecidableEq, Repr

/-- Does this entry match the (old path, old version) key?  An empty old
version matches any version — the matching rule used both by
`modfile.File.AddReplace` and by `GoMod.addReplace`'s comment search. -/
def Replace.matchesOld (r : Replace) (oldPath oldVers : String) : Bool :=
  r.Old.Path == oldPath && (oldVers == "" || r.Old.Version == oldVers)

/-- Modelled from the spec: the manifest writer's add-replace operation
(`modfile.File.AddReplace` of golang.org/x/mod, a collaborator the spec
keeps out of scope and describes as having last-write-wins semantics for
duplicate keys, spec sections 4.5 and 9): the first entry matching the old
module is updated in place to the new module, later matching duplicates are
dropped, and a fresh entry is appended when nothing matches. -/
def addReplaceList (rs : List Replace) (oldPath oldVers : String) (nv : ModVersion) :
    List Replace :=
  match rs with
  | [] => [{ Old := { Path := oldPath, Version := oldVers }, New := nv }]
  | r :: rest =>
    if r.matchesOld oldPath oldVers then
      { r with New := nv } :: rest.filter (fun s => !(s.matchesOld oldPath oldVers))
    else
      r :: addReplaceList rest oldPath oldVers nv

def ModFile.AddReplace (f : ModFile) (oldPath oldVers newPath newVers : String) : ModFile :=
  { Replace := addReplaceList f.Replace oldPath oldVers { Path := newPath, Version := newVers } }

/-- The comment loop of `GoMod.addReplace`: attach the marker comment to the
first manifest entry matching the directive's old module, or report that no
entry was found. -/
def setCommentFirst (rs : List Replace) (oldPath oldVers comment : String) :
    Option (List Replace) :=
  match rs with
  | [] => none
  | r :: rest =>
    if r.matchesOld oldPath oldVers then
      some ({ r with comment := comment } :: rest)
    else
      (setCommentFirst rest oldPath oldVers comment).map (r :: ·)

/-- `GoMod.addReplace`: add through the manifest writer, then, when a marker
comment is configured, attach it to the just-inserted entry; failing to find
that entry is the error "error entry was not found to add comment". -/
def GoMod.addReplace (f : ModFile) (input : GoModReplace) : Except String ModFile :=
  let f' := f.AddReplace input.Old.Path input.Old.Version input.New.Path input.New.Version
  if input.Comment = "" then .ok f'
  else
    match setCommentFirst f'.Replace input.Old.Path input.Old.Version
        ("// [go-mod-promote] " ++ input.Comment) with
    | some rs => .ok { Replace := rs }
    | none => .error "error entry was not found to add comment"

/-- The contract of Go's `sort.Slice` as called by `GoMod.Finish` with
`less i j` being `Priority i < Priority j`: the outcome is some permutation
of the accumulated directives that is nondecreasing by priority.
`sort.Slice` is documented as not guaranteed to be stable, so the embedding
quantifies over all such outcomes instead of fixing one. -/
def sortedByPriority (l : List GoModReplace) : Prop :=
  l.Pairwise (fun a b => a.Priority ≤ b.Priority)

instance (l : List GoModReplace) : Decidable (sortedByPriority l) :=
  List.instDecidablePairwise l

/-- The replace-merging part of `GoMod.Finish` after the sort: add each
accumulated directive to the manifest in order. -/
def GoMod.finishReplaces (f : ModFile) (sortedReplaces : List GoModReplace) :
    Except String ModFile :=
  sortedReplaces.foldlM GoMod.addReplace f

theorem addReplace_on_empty {p : String} (d : GoModReplace)
    (hd : d.Old = ⟨p, ""⟩) :
    ∃ c, GoMod.addReplace ⟨[]⟩ d = .ok ⟨[⟨⟨p, ""⟩, d.New, c⟩]⟩ := by
  by_cases hc : d.Comment = ""
  · exact ⟨"", by simp [GoMod.addReplace, ModFile.AddReplace, addReplaceList,
      Replace.matchesOld, setCommentFirst, hd, hc]⟩
  · exact ⟨"// [go-mod-promote] " ++ d.Comment,
      by simp [GoMod.addReplace, ModFile.AddReplace, addReplaceList,
        Replace.matchesOld, setCommentFirst, hd, hc]⟩

theorem addReplace_on_single {p : String} (n : ModVersion) (c0 : String)
    (d : GoModReplace) (hd : d.Old = ⟨p, ""⟩) :
    ∃ c, GoMod.addReplace ⟨[⟨⟨p, ""⟩, n, c0⟩]⟩ d = .ok ⟨[⟨⟨p, ""⟩, d.New, c⟩]⟩ := by
  by_cases hc : d.Comment = ""
  · exact ⟨c0, by simp [GoMod.addReplace, ModFile.AddReplace, addReplaceList,
      Replace.matchesOld, setCommentFirst, hd, hc]⟩
  · exact ⟨"// [go-mod-promote] " ++ d.Comment,
      by simp [GoMod.addReplace, ModFile.AddReplace, addReplaceList,
        Replace.matchesOld, setCommentFirst, hd, hc]⟩

theorem finishReplaces_from_single {p : String} (l : List GoModReplace)
    (hall : ∀ s ∈ l, s.Old = ⟨p, ""⟩) :
    ∀ (n : ModVersion) (c0 : String),
      ∃ c, GoMod.finishReplaces ⟨[⟨⟨p, ""⟩, n, c0⟩]⟩ l =
        .ok ⟨[⟨⟨p, ""⟩, (l.map GoModReplace.New).getLastD n, c⟩]⟩ := by
  induction l with
  | nil => exact fun n c0 => ⟨c0, rfl⟩
  | cons d rest ih =>
    intro n c0
    obtain ⟨c1, hc1⟩ := addReplace_on_single n c0 d (hall d (List.mem_cons_self d rest))
    obtain ⟨c, hc⟩ := ih (fun s hs => hall s (List.mem_cons_of_mem d hs)) d.New c1
    refine ⟨c, ?_⟩
    simp only [GoMod.finishReplaces, List.foldlM_cons, hc1, List.map_cons,
      List.getLastD_cons]
    simpa [GoMod.finishReplaces] using hc

theorem map_getLastD {α β : Type} (f : α → β) (l : List α) (a : α) :
    (l.map f).getLastD (f a) = f (l.getLastD a) := by
  induction l generalizing a with
  | nil => rfl
  | cons x xs ih =>
    rw [List.map_cons, List.getLastD_cons, List.getLastD_cons, ih]

theorem getLastD_eq_getLast_cons {α : Type} (d : α) (rest : List α) :
    rest.getLastD d = (d :: rest).getLast (List.cons_ne_nil d rest) := by
  induction rest generalizing d with
  | nil => rfl
  | cons b u ih =>
    rw [List.getLastD_cons, List.getLast_cons_cons]
    exact ih b

theorem pairwise_priority_le_getLast {l : List GoModReplace} (h : l ≠ [])
    (hp : sortedByPriority l) :
    ∀ x ∈ l, x.Priority ≤ (l.getLast h).Priority := by
  induction l with
  | nil => exact absurd rfl h
  | cons a t ih =>
    intro x hx
    cases t with
    | nil =>
      rcases List.mem_cons.mp hx with rfl | hx'
      · exact le_refl _
      · simp at hx'
    | cons b u =>
      rw [List.getLast_cons (by simp)]
      rcases List.mem_cons.mp hx with rfl | hx'
      · exact List.rel_of_pairwise_cons hp
          (List.getLast_mem (l := b :: u) (by simp))
      · exact ih (by simp) (List.Pairwise.of_cons hp) x hx'

/-- C2 (amended): among accumulated replace directives with the same old
module path, after `Finish` the manifest's effective replace entry is the
directive with the strictly highest Priority, regardless of the order the
directives were added in and for every outcome the unstable `sort.Slice`
may produce; directives of equal priority carry no last-added tie-break
guarantee (settled separately by the counterexample). -/
theorem gomod_finish_highest_priority_wins
    (p : String) (l l' : List GoModReplace) (r : GoModReplace)
    (hall : ∀ s ∈ l, s.Old = ⟨p, ""⟩)
    (hperm : l'.Perm l) (hsort : sortedByPriority l')
    (hr : r ∈ l) (hmax : ∀ s ∈ l, s ≠ r → s.Priority < r.Priority) :
    ∃ c, GoMod.finishReplaces ⟨[]⟩ l' = .ok ⟨[⟨⟨p, ""⟩, r.New, c⟩]⟩ := by
  have hall' : ∀ s ∈ l', s.Old = ⟨p, ""⟩ := fun s hs => hall s (hperm.mem_iff.mp hs)
  have hne : l' ≠ [] := by
    intro hnil
    rw [hnil] at hperm
    exact absurd (hperm.symm.mem_iff.mp hr) (List.not_mem_nil r)
  have hlast : l'.getLast hne = r := by
    by_contra hlr
    have hmem : l'.getLast hne ∈ l := hperm.mem_iff.mp (List.getLast_mem hne)
    have hlt : (l'.getLast hne).Priority < r.Priority := hmax _ hmem hlr
    have hle : r.Priority ≤ (l'.getLast hne).Priority :=
      pairwise_priority_le_getLast hne hsort r (hperm.mem_iff.mpr hr)
    omega
  cases hl' : l' with
  | nil => exact absurd hl' hne
  | cons d rest =>
    subst hl'
    obtain ⟨c1, hc1⟩ := addReplace_on_empty d (hall' d (List.mem_cons_self d rest))
    obtain ⟨c, hc⟩ := finishReplaces_from_single rest
      (fun s hs => hall' s (List.mem_cons_of_mem d hs)) d.New c1
    refine ⟨c, ?_⟩
    have hrest : rest.getLastD d = r := by
      rw [getLastD_eq_getLast_cons]
      exact hlast
    have hlastD : (rest.map GoModReplace.New).getLastD d.New = r.New := by
      rw [map_getLastD GoModReplace.New rest d, hrest]
    simp only [GoMod.finishReplaces, List.foldlM_cons, hc1]
    rw [← hlastD]
    simpa [GoMod.finishReplaces] using hc

/-- C2, counterexample to the tie-breaking sentence of the claim: two
directives for old path "p" with equal priority 200, added in the order
first-"a" then-"b".  The swapped list is a legitimate outcome of the
unstable `sort.Slice` (it is a permutation, nondecreasing by priority), and
finishing with it makes the first-added directive, not the last-added one,
the manifest's effective entry. -/
theorem gomod_finish_tie_counterexample :
    ([⟨⟨"p", ""⟩, ⟨"b", "v2"⟩, 200, ""⟩, ⟨⟨"p", ""⟩, ⟨"a", "v1"⟩, 200, ""⟩] :
        List GoModReplace).Perm
      [⟨⟨"p", ""⟩, ⟨"a", "v1"⟩, 200, ""⟩, ⟨⟨"p", ""⟩, ⟨"b", "v2"⟩, 200, ""⟩]
    ∧ sortedByPriority
        [⟨⟨"p", ""⟩, ⟨"b", "v2"⟩, 200, ""⟩, ⟨⟨"p", ""⟩, ⟨"a", "v1"⟩, 200, ""⟩]
    ∧ GoMod.finishReplaces ⟨[]⟩
        [⟨⟨"p", ""⟩, ⟨"b", "v2"⟩, 200, ""⟩, ⟨⟨"p", ""⟩, ⟨"a", "v1"⟩, 200, ""⟩]
        = .ok ⟨[⟨⟨"p", ""⟩, ⟨"a", "v1"⟩, ""⟩]⟩
    ∧ (⟨"a", "v1"⟩ : ModVersion) ≠ ⟨"b", "v2"⟩ := by
  refine ⟨by decide, by decide, ?_, by decide⟩
  rfl

theorem gomod_finish_priority_witness :
    ∃ c, GoMod.finishReplaces ⟨[]⟩
        [⟨⟨"p", ""⟩, ⟨"old", "v0"⟩, 200, ""⟩, ⟨⟨"p", ""⟩, ⟨"newmod", "v9"⟩, 1000, ""⟩] =
      .ok ⟨[⟨⟨"p", ""⟩, ⟨"newmod", "v9"⟩, c⟩]⟩ :=
  gomod_finish_highest_priority_wins "p"
    [⟨⟨"p", ""⟩, ⟨"newmod", "v9"⟩, 1000, ""⟩, ⟨⟨"p", ""⟩, ⟨"old", "v0"⟩, 200, ""⟩]
    [⟨⟨"p", ""⟩, ⟨"old", "v0"⟩, 200, ""⟩, ⟨⟨"p", ""⟩, ⟨"newmod", "v9"⟩, 1000, ""⟩]
    ⟨⟨"p", ""⟩, ⟨"newmod", "v9"⟩, 1000, ""⟩
    (by decide) (by decide) (by decide) (by decide) (by decide)

/-! ## Diff task (TaskDiff.run) -/

structure TaskDiff where
  Source : String
  Destination : String
deriving DecidableEq, Repr

/-- One iteration of the scan loop of `TaskDiff.run` on a scanned line `b`
(bytes as characters; all bytes inspected are single-byte), where `cap` is
the capacity of the slice `b` into the scanner's buffer.  A `+++`/`---`
line is rewritten to the joined new/old destination path.  Crucially,
`append(b[:4], path...)` writes `path` into `b`'s backing array whenever
`4 + len(path) ≤ cap(b)`, so the later `IndexRune` search for the metadata
tab runs over the mutated line, exactly as in the Go code.  A line shorter
than 4 bytes makes `b[:4]` read past the scanned token (or panic when the
capacity is also short); that is modelled as `none`. -/
def TaskDiff.processLine (t : TaskDiff) (cap : Nat) (b : List Char) :
    Option (List Char) :=
  if "+++".data.isPrefixOf b || "---".data.isPrefixOf b then
    let pathWord := if "+++".data.isPrefixOf b then "new" else "old"
    let path := (filepathJoin pathWord t.Destination).data
    if b.length < 4 then none
    else
      let bMut :=
        if 4 + path.length ≤ cap then
          (b.take 4 ++ path ++ b.drop (4 + path.length)).take b.length
        else b
      let meta :=
        match (bMut.drop 3).findIdx? (· == '\t') with
        | some pos => if pos > 0 then bMut.drop (pos + 3) else []
        | none => []
      some (b.take 4 ++ path ++ meta ++ ['\n'])
  else
    some (b ++ ['\n'])

/-- The scanner loop of `TaskDiff.run`: process every line of the captured
stdout in order, concatenating the rewritten output. -/
def TaskDiff.scanLines (t : TaskDiff) (cap : Nat) (lines : List (List Char)) :
    Option (List Char) :=
  lines.foldl
    (fun acc b =>
      match acc, t.processLine cap b with
      | some diff, some out => some (diff ++ out)
      | _, _ => none)
    (some [])

/-- Error outcome of running the external diff command (`cmd.Run()`). -/
inductive RunError
  | exit (code : Int)    -- an exec.ExitError carrying this exit code
  | other (msg : String) -- any other failure, such as the binary not starting
deriving DecidableEq, Repr

/-- Outcome of `TaskDiff.run`. -/
inductive DiffOutcome
  | err (e : RunError) -- hard failure returned to the caller, no Result
  | outOfRange              -- modelled undefined behaviour (out-of-range slice)
  | ok (r : Result)    -- the produced Result
deriving DecidableEq, Repr

/-- Embedding of `TaskDiff.run` given the outcome of the external diff
command: an exit-status error with code other than 1 is returned as a hard
failure; exit code 1, a clean exit, and every non-exit-status error fall
through to the scan of the captured stdout, whose output becomes the body
of the single returned Patch. -/
def TaskDiff.run (t : TaskDiff) (cap : Nat) (runErr : Option RunError)
    (stdoutLines : List (List Char)) : DiffOutcome :=
  let hardErr :=
    match runErr with
    | some (.exit code) => if code ≠ 1 then some (RunError.exit code) else none
    | some (.other _) => none
    | none => none
  match hardErr with
  | some e => .err e
  | none =>
    match t.scanLines cap stdoutLines with
    | some diff => .ok { Patches := [{ Body := diff }] }
    | none => .outOfRange

/-- C3 (evaluation at the failing input): processing the header line
`+++ a/x.go<TAB>2020-01-01 00:00:00.000000000 +0000` with destination
`vendor/x` and a realistic scanner-buffer capacity drops the tab-delimited
metadata entirely: the rewritten path (`new/vendor/x`, 12 bytes) is longer
than the original path field (`a/x.go`, 6 bytes), so the in-place append
overwrites the tab in the scanner's buffer before the tab search runs.
The claim — and the code's own comment, "add everything after the path in
the original line" — say the trailing metadata is preserved unchanged. -/
theorem taskDiff_processLine_drops_metadata :
    TaskDiff.processLine { Source := "x", Destination := "vendor/x" } 65536
        "+++ a/x.go\t2020-01-01 00:00:00.000000000 +0000".data
      = some "+++ new/vendor/x\n".data := by
  rfl

/-- C7: exit code 1 from the diff tool is not treated as an error — the
task proceeds exactly as on a clean exit and produces its patch Result —
while any other non-zero exit code is returned as a hard failure carrying
that error and no Result. -/
theorem taskDiff_exit_code_policy (t : TaskDiff) (cap : Nat)
    (lines : List (List Char)) :
    (t.run cap (some (.exit 1)) lines = t.run cap none lines
      ∧ ∀ diff, t.scanLines cap lines = some diff →
          t.run cap (some (.exit 1)) lines =
            .ok { Patches := [{ Body := diff }] })
    ∧ ∀ code : Int, code ≠ 1 →
        t.run cap (some (.exit code)) lines = .err (.exit code) := by
  refine ⟨⟨rfl, ?_⟩, ?_⟩
  · intro diff hscan
    simp [TaskDiff.run, hscan]
  · intro code hcode
    simp [TaskDiff.run, hcode]

theorem taskDiff_exit_code_policy_witness :
    TaskDiff.run { Source := "f", Destination := "vendor/x" } 65536
        (some (.exit 2)) [] = .err (.exit 2) :=
  (taskDiff_exit_code_policy { Source := "f", Destination := "vendor/x" }
    65536 []).2 2 (by decide)

/-- C10: a failure of the diff command that is not an exit-status error
(such as the diff binary failing to start) is swallowed rather than
propagated: the task still succeeds, returning a Result with exactly one
Patch whose body is built from scanning the then-empty captured stdout. -/
theorem taskDiff_swallows_non_exit_error (t : TaskDiff) (cap : Nat) (m : String) :
    TaskDiff.run t cap (some (.other m)) [] =
      .ok { Patches := [{ Body := [] }] } := rfl

/-! ## Task dispatch (Task.Run) -/

structure TaskGoModReplace where
  Name : String
deriving DecidableEq, Repr

/-- `tasks.Regexp` (configuration of the regexp task; its executor is
opaque to the dispatch claims). -/
structure Regexp where
  Path : String
  Regexp : String
deriving DecidableEq, Repr

structure TaskRegexp where
  Source : Regexp
  Destinations : List Regexp := []
deriving DecidableEq, Repr

/-- `tasks.Task`: four optional variants. -/
structure Task where
  SyncDirectory : Option TaskSyncDirectory := none
  Diff : Option TaskDiff := none
  GoModReplace : Option TaskGoModReplace := none
  Regexp : Option TaskRegexp := none
deriving DecidableEq, Repr

/-- A `taskRunner` interface value as placed into the runners slice. -/
inductive TaskRunner
  | syncDirectory (t : TaskSyncDirectory)
  | diff (t : TaskDiff)
  | goModReplace (t : TaskGoModReplace)
  | regexp (t : TaskRegexp)
deriving DecidableEq, Repr

/-- Environment supplying each variant executor's outcome; the executors
perform filesystem and subprocess effects, which the dispatcher treats as
an opaque `run(ctx)` call returning a Result (possibly `nil`) or an error. -/
structure TaskEnv where
  runSyncDirectory : TaskSyncDirectory → Except String (Option Result)
  runDiff : TaskDiff → Except String (Option Result)
  runGoModReplace : TaskGoModReplace → Except String (Option Result)
  runRegexp : TaskRegexp → Except String (Option Result)

def TaskRunner.run (env : TaskEnv) : TaskRunner → Except String (Option Result)
  | .syncDirectory t => env.runSyncDirectory t
  | .diff t => env.runDiff t
  | .goModReplace t => env.runGoModReplace t
  | .regexp t => env.runRegexp t

/-- The runners slice built by `Task.Run`, in the order the four variants
are checked. -/
def Task.runners (t : Task) : List TaskRunner :=
  (t.SyncDirectory.toList.map TaskRunner.syncDirectory)
    ++ (t.Diff.toList.map TaskRunner.diff)
    ++ (t.GoModReplace.toList.map TaskRunner.goModReplace)
    ++ (t.Regexp.toList.map TaskRunner.regexp)

/-- `Task.Run`: validate that exactly one variant is set, then delegate to
`runners[0]`. -/
def Task.Run (t : Task) (env : TaskEnv) : Except String (Option Result) :=
  match t.runners with
  | [] => .error "No task implementation specified"
  | [r] => r.run env
  | _ :: _ :: _ => .error "More than one task implementations specified"

/-- The number of variants set on a Task. -/
def Task.variantsSet (t : Task) : Nat :=
  (if t.SyncDirectory.isSome then 1 else 0)
    + (if t.Diff.isSome then 1 else 0)
    + (if t.GoModReplace.isSome then 1 else 0)
    + (if t.Regexp.isSome then 1 else 0)

/-- C4, counterexample to the error strings quoted by the claim: the code's
zero-variant error is "No task implementation specified" (capital N) and
its multiple-variant error is "More than one task implementations
specified" ("implementations", plural), so neither equals the string the
claim asserts. -/
theorem task_run_error_strings_counterexample :
    Task.Run {}
        ⟨fun _ => .ok none, fun _ => .ok none, fun _ => .ok none,
          fun _ => .ok none⟩
      = .error "No task implementation specified"
    ∧ "No task implementation specified" ≠ "no task implementation specified"
    ∧ Task.Run
        { SyncDirectory := some { Source := "s", Destination := "d" },
          Diff := some { Source := "a", Destination := "b" } }
        ⟨fun _ => .ok none, fun _ => .ok none, fun _ => .ok none,
          fun _ => .ok none⟩
      = .error "More than one task implementations specified"
    ∧ "More than one task implementations specified"
      ≠ "more than one task implementation specified" :=
  ⟨rfl, by decide, rfl, by decide⟩

/-- C4 (amended to the code's actual error strings): with zero variants set
`Run` fails with "No task implementation specified" and with more than one
it fails with "More than one task implementations specified" — in both
cases for every environment, so no variant executor is consulted and no
side effect occurs; with exactly one variant set, `Run` returns that
executor's Result or propagates its error unchanged. -/
theorem task_run_dispatch (t : Task) (env : TaskEnv) :
    (t.variantsSet = 0 →
      t.Run env = .error "No task implementation specified")
    ∧ (2 ≤ t.variantsSet →
      t.Run env = .error "More than one task implementations specified")
    ∧ (∀ s, t = { SyncDirectory := some s } → t.Run env = env.runSyncDirectory s)
    ∧ (∀ d, t = { Diff := some d } → t.Run env = env.runDiff d)
    ∧ (∀ g, t = { GoModReplace := some g } → t.Run env = env.runGoModReplace g)
    ∧ (∀ x, t = { Regexp := some x } → t.Run env = env.runRegexp x) := by
  obtain ⟨s, d, g, x⟩ := t
  cases s <;> cases d <;> cases g <;> cases x <;>
    simp [Task.Run, Task.runners, Task.variantsSet, TaskRunner.run]

theorem task_run_dispatch_witness :
    Task.Run {}
        ⟨fun _ => .error "sync", fun _ => .ok none, fun _ => .ok none,
          fun _ => .ok none⟩
      = .error "No task implementation specified" :=
  (task_run_dispatch {}
    ⟨fun _ => .error "sync", fun _ => .ok none, fun _ => .ok none,
      fun _ => .ok none⟩).1 (by decide)

/-! ## Patch application (Patch.Apply) -/

/-- Observable outcome of the patch-tool invocation.  Modelled from the
spec for the process-runner collaborator (spec section 6, the `command`
package variant carrying `ExitCode` is not part of the sources): the runner
captures stdout/stderr and reports the subprocess's exit code, and `Wait`
fails exactly for a non-zero exit. -/
structure CmdOutcome where
  exitCode : Int
  stdout : String
  stderr : String
deriving DecidableEq, Repr

/-- The wrapped patch error `error applying patch: ... stdout=[...]
stderr=[...]` built by `Patch.Apply` from the tool outcome. -/
def patchWrapMsg (c : CmdOutcome) : String :=
  "error applying patch: exit status " ++ toString c.exitCode
    ++ " stdout=[" ++ c.stdout ++ "] stderr=[" ++ c.stderr ++ "]"

/-- Outcome of `Patch.Apply`: success, a plain error, or the distinguished
`PatchError` value carrying the wrapped upstream error, the raw reject
bytes and the captured stdout (its `Error()` message). -/
inductive PatchApplyOutcome
  | ok
  | err (msg : String)
  | patchError (Upstream : String) (Reject : String) (msg : String)
deriving DecidableEq, Repr

/-- Embedding of the decision logic of `Patch.Apply` after the tool ran:
`rejectRead` is the attempted read of the temporary reject file (`none`
when unreadable).  A non-zero exit makes `Wait` fail and the error is
wrapped; with exit code 1 the reject file is consulted — unreadable or
empty content returns the wrapped error alone, non-empty content returns
the distinguished `PatchError`; any other non-zero exit returns the
wrapped error; exit 0 succeeds. -/
def Patch.Apply (c : CmdOutcome) (rejectRead : Option String) :
    PatchApplyOutcome :=
  if c.exitCode ≠ 0 then
    let err := patchWrapMsg c
    if c.exitCode = 1 then
      match rejectRead with
      | none => .err err
      | some rejectBody =>
        if rejectBody.length = 0 then .err err
        else .patchError err rejectBody c.stdout
    else .err err
  else .ok

/-- C5: `Patch.Apply` returns the distinguished patch-reject error —
carrying the wrapped original error, the raw reject bytes and the tool's
captured stdout — exactly when the tool exits with code 1 and the reject
file has readable non-empty content; exit code 0 succeeds with no error;
every other case (another non-zero exit, or exit 1 with an unreadable or
empty reject file) is a plain hard failure without the reject payload. -/
theorem patch_apply_classification (c : CmdOutcome) (rej : Option String) :
    (c.exitCode = 0 → Patch.Apply c rej = .ok)
    ∧ (∀ r, c.exitCode = 1 → rej = some r → r ≠ "" →
        Patch.Apply c rej = .patchError (patchWrapMsg c) r c.stdout)
    ∧ (c.exitCode ≠ 0 → (c.exitCode ≠ 1 ∨ rej = none ∨ rej = some "") →
        Patch.Apply c rej = .err (patchWrapMsg c)) := by
  refine ⟨?_, ?_, ?_⟩
  · intro h0
    simp [Patch.Apply, h0]
  · intro r h1 hrej hr
    have hlen : r.length ≠ 0 := fun hl =>
      hr (congrArg String.mk (List.length_eq_zero.mp hl))
    simp [Patch.Apply, h1, hrej, hlen]
  · intro h0 hcase
    rcases hcase with h1 | hnone | hempty
    · simp [Patch.Apply, h0, h1]
    · by_cases h1 : c.exitCode = 1 <;> simp [Patch.Apply, h0, h1, hnone]
    · by_cases h1 : c.exitCode = 1 <;> simp [Patch.Apply, h0, h1, hempty]

theorem patch_apply_classification_witness :
    Patch.Apply { exitCode := 1, stdout := "out", stderr := "boom" }
        (some "REJ")
      = .patchError
          (patchWrapMsg { exitCode := 1, stdout := "out", stderr := "boom" })
          "REJ" "out" :=
  (patch_apply_classification
    { exitCode := 1, stdout := "out", stderr := "boom" } (some "REJ")).2.1
    "REJ" (by decide) rfl (by decide)

/-! ## Result application (Result.Apply) -/

/-- A single operation as executed by `Result.Apply`. -/
inductive AppliedOp
  | patch (p : Patch)
  | delete (d : String)
  | copy (c : Copy)
deriving DecidableEq, Repr

/-- One of the three loops of `Result.Apply`: apply each element in order,
record it in the execution trace, and append the error of each failing
element to the multierror accumulator, continuing past failures. -/
def applyLoop {α : Type} (applyOne : α → Option String) (mk : α → AppliedOp)
    (st : List AppliedOp × List String) (xs : List α) :
    List AppliedOp × List String :=
  xs.foldl
    (fun st x =>
      match applyOne x with
      | some e => (st.1 ++ [mk x], st.2 ++ [e])
      | none => (st.1 ++ [mk x], st.2))
    st

/-- Embedding of `Result.Apply`: three sequential loops — patches, then
deletions, then copies — threading the multierror accumulator, with the
executed-operation trace made explicit.  Per-operation outcomes are
supplied by the oracles (`none` = success, `some e` = failure with `e`).
The second component is Go's returned error: `none` (nil) when nothing was
accumulated, the combined error list otherwise. -/
def Result.Apply (r : Result) (patchOut : Patch → Option String)
    (delOut : String → Option String) (copyOut : Copy → Option String) :
    List AppliedOp × Option (List String) :=
  let st := applyLoop patchOut AppliedOp.patch ([], []) r.Patches
  let st := applyLoop delOut AppliedOp.delete st r.FilesToDelete
  let st := applyLoop copyOut AppliedOp.copy st r.FilesToCopy
  (st.1, if st.2 = [] then none else some st.2)

theorem applyLoop_spec {α : Type} (applyOne : α → Option String)
    (mk : α → AppliedOp) (st : List AppliedOp × List String) (xs : List α) :
    applyLoop applyOne mk st xs
      = (st.1 ++ xs.map mk, st.2 ++ xs.filterMap applyOne) := by
  induction xs generalizing st with
  | nil => simp [applyLoop]
  | cons x tl ih =>
    have hstep : applyLoop applyOne mk st (x :: tl)
        = applyLoop applyOne mk
            (match applyOne x with
             | some e => (st.1 ++ [mk x], st.2 ++ [e])
             | none => (st.1 ++ [mk x], st.2)) tl := rfl
    cases hx : applyOne x with
    | some e =>
      rw [hstep]
      simp only [hx]
      rw [ih]
      simp [List.filterMap_cons, hx]
    | none =>
      rw [hstep]
      simp only [hx]
      rw [ih]
      simp [List.filterMap_cons, hx]

/-- C6: `Result.Apply` executes all patches first, then all deletions, then
all copies — completing every operation of one kind before starting the
next kind — continues past individual failures, and returns the errors of
every failing operation combined (in execution order) as one multi-error,
returning nil exactly when every operation succeeded. -/
theorem result_apply_order_and_errors (r : Result)
    (patchOut : Patch → Option String) (delOut : String → Option String)
    (copyOut : Copy → Option String) :
    (r.Apply patchOut delOut copyOut).1
      = r.Patches.map AppliedOp.patch
          ++ r.FilesToDelete.map AppliedOp.delete
          ++ r.FilesToCopy.map AppliedOp.copy
    ∧ (r.Apply patchOut delOut copyOut).2
      = (if r.Patches.filterMap patchOut
              ++ r.FilesToDelete.filterMap delOut
              ++ r.FilesToCopy.filterMap copyOut = [] then none
         else some (r.Patches.filterMap patchOut
              ++ r.FilesToDelete.filterMap delOut
              ++ r.FilesToCopy.filterMap copyOut)) := by
  unfold Result.Apply
  simp only [applyLoop_spec]
  simp

/-! ## Version strings (pkg/api/api.go over golang.org/x/mod/semver)

`GoModVersion.Release` and `GoModVersion.Hash` are built on the external
golang.org/x/mod `semver` parser, embedded below from that library's
semantics over `List Char` (every string the parser accepts is ASCII, so
characters and bytes coincide). -/

namespace Semver

def isDigitChar (c : Char) : Bool := '0' ≤ c && c ≤ '9'

/-- `semver` ident characters: ASCII letters, digits and the dash. -/
def isIdentChar (c : Char) : Bool :=
  ('A' ≤ c && c ≤ 'Z') || ('a' ≤ c && c ≤ 'z') || isDigitChar c || c == '-'

/-- `semver.parseInt`: a leading non-empty run of digits with no leading
zero (unless the run is exactly "0"), returned with the remainder. -/
def parseInt (v : List Char) : Option (List Char × List Char) :=
  match v with
  | [] => none
  | c :: _ =>
    if !isDigitChar c then none
    else
      let t := v.takeWhile isDigitChar
      if c == '0' && t.length != 1 then none
      else some (t, v.dropWhile isDigitChar)

/-- `semver.isBadNum`: an all-digit token longer than one character with a
leading zero. -/
def isBadNum (v : List Char) : Bool :=
  v.all isDigitChar && v.length > 1 && v.headD ' ' == '0'

/-- The scanning loop of `semver.parsePrerelease`: `seg` is the segment
accumulated since the last dot; on success returns the consumed body and
the remainder (from `+` on). -/
def prereleaseLoop (seg : List Char) : List Char → Option (List Char × List Char)
  | [] => if seg.isEmpty || isBadNum seg then none else some ([], [])
  | c :: rest =>
    if c == '+' then
      if seg.isEmpty || isBadNum seg then none else some ([], c :: rest)
    else if !(isIdentChar c || c == '.') then none
    else if c == '.' then
      if seg.isEmpty || isBadNum seg then none
      else (prereleaseLoop [] rest).map (fun pr => (c :: pr.1, pr.2))
    else (prereleaseLoop (seg ++ [c]) rest).map (fun pr => (c :: pr.1, pr.2))

/-- `semver.parsePrerelease`: a leading dash followed by dot-separated,
non-empty ident segments where numeric segments carry no leading zero;
the returned token includes the dash. -/
def parsePrerelease (v : List Char) : Option (List Char × List Char) :=
  match v with
  | '-' :: rest => (prereleaseLoop [] rest).map (fun pr => ('-' :: pr.1, pr.2))
  | _ => none

/-- The scanning loop of `semver.parseBuild`: dot-separated non-empty ident
segments running to the end of the string. -/
def buildLoop (seg : List Char) : List Char → Option (List Char)
  | [] => if seg.isEmpty then none else some []
  | c :: rest =>
    if !(isIdentChar c || c == '.') then none
    else if c == '.' then
      if seg.isEmpty then none
      else (buildLoop [] rest).map (c :: ·)
    else (buildLoop (seg ++ [c]) rest).map (c :: ·)

/-- `semver.parseBuild`: a leading plus followed by the build body; the
remainder is always empty. -/
def parseBuild (v : List Char) : Option (List Char × List Char) :=
  match v with
  | '+' :: rest => (buildLoop [] rest).map (fun t => ('+' :: t, []))
  | _ => none

/-- The fields of `semver.parse`'s result. -/
structure Parsed where
  major : List Char := []
  minor : List Char := []
  patch : List Char := []
  short : List Char := []
  prerelease : List Char := []
  build : List Char := []
deriving DecidableEq, Repr

/-- `semver.parse`: `v` prefix, dotted numeric major/minor/patch (missing
parts canonicalised through `short`), optional prerelease and build. -/
def parse (v : List Char) : Option Parsed :=
  match v with
  | 'v' :: v1 =>
    match parseInt v1 with
    | none => none
    | some (major, v2) =>
      match v2 with
      | [] => some { major, minor := ['0'], patch := ['0'], short := ".0.0".data }
      | '.' :: v3 =>
        match parseInt v3 with
        | none => none
        | some (minor, v4) =>
          match v4 with
          | [] => some { major, minor, patch := ['0'], short := ".0".data }
          | '.' :: v5 =>
            match parseInt v5 with
            | none => none
            | some (patch, v6) =>
              let preStep : Option (List Char × List Char) :=
                match v6 with
                | '-' :: _ => parsePrerelease v6
                | _ => some ([], v6)
              match preStep with
              | none => none
              | some (pre, v7) =>
                let buildStep : Option (List Char × List Char) :=
                  match v7 with
                  | '+' :: _ => parseBuild v7
                  | _ => some ([], v7)
                match buildStep with
                | none => none
                | some (bld, v8) =>
                  if v8.isEmpty then
                    some { major, minor, patch, prerelease := pre, build := bld }
                  else none
          | _ => none
      | _ => none
  | _ => none

/-- `semver.Prerelease`: the prerelease token (including its dash), or ""
for an invalid version. -/
def Prerelease (v : String) : String :=
  match parse v.data with
  | some p => String.mk p.prerelease
  | none => ""

/-- `semver.Canonical`: "" for an invalid version; otherwise the version
with build metadata cut off and missing minor/patch filled in. -/
def Canonical (v : String) : String :=
  match parse v.data with
  | none => ""
  | some p =>
    if !p.build.isEmpty then
      String.mk (v.data.take (v.data.length - p.build.length))
    else if !p.short.isEmpty then v ++ String.mk p.short
    else v

end Semver

/-- `strings.LastIndex(s, "-")` as an index, `-1` when absent. -/
def stringsLastIndexDash (s : List Char) : Int :=
  match s.reverse.findIdx? (· == '-') with
  | some j => (s.length : Int) - 1 - j
  | none => -1

/-- `api.GoModVersion`. -/
abbrev GoModVersion := String

/-- `GoModVersion.Release`: the canonical version with the prerelease
suffix cut off. -/
def GoModVersion.Release (v : GoModVersion) : String :=
  let prerelease := Semver.Prerelease v
  let version := Semver.Canonical v
  String.mk (version.data.take (version.data.length - prerelease.data.length))

/-- `GoModVersion.Hash`: the text after the last dash of the prerelease
component (`strings.LastIndex(prerelease, "-") + 1`). -/
def GoModVersion.Hash (v : GoModVersion) : String :=
  let prerelease := Semver.Prerelease v
  let pos := stringsLastIndexDash prerelease.data + 1
  String.mk (prerelease.data.drop pos.toNat)

/-- C9: `Release` of "v1.2.3-0.20210101000000-abcdef123456" equals "v1.2.3"
and `Hash` of it equals "abcdef123456"; and for every version string whose
prerelease component is absent (the parsed prerelease is empty), `Hash`
returns the empty string. -/
theorem goModVersion_release_hash :
    (GoModVersion.Release "v1.2.3-0.20210101000000-abcdef123456" = "v1.2.3"
      ∧ GoModVersion.Hash "v1.2.3-0.20210101000000-abcdef123456"
          = "abcdef123456")
    ∧ ∀ v : String, Semver.Prerelease v = "" → GoModVersion.Hash v = "" := by
  refine ⟨⟨rfl, rfl⟩, ?_⟩
  intro v hpre
  simp only [GoModVersion.Hash, hpre]
  rfl

theorem goModVersion_release_hash_witness :
    GoModVersion.Hash "v1.2.3" = "" :=
  goModVersion_release_hash.2 "v1.2.3" rfl

end GoModPromote
